import Mathlib

/-!
Verification development for the FaceGuard image-protection pipeline
(`src/app/api/protect/route.ts`).

The TypeScript source is shallowly embedded: pixel buffers become `List ℕ`
(byte values), the two floating-point transcendental helpers of the source
(`Math.sin`-based draws) become explicit function parameters, and the
stateful in-place loops become folds / fuel recursion over explicit states.

Floating-point abstraction: the source PRNG is
`seededRandom = () => frac(Math.sin(seedValue++) * 100000)` with an integer
state `seedValue`.  `Math.sin` is a fixed pure function, so the draw at
state `n` is a fixed value in `[0,1)`; we model the draw stream as a
parameter `rnd : ℕ → ℚ` (the draw made at integer state `n`), constrained
to `[0,1)` where a claim needs it.  Likewise the warp layer's direct
`Math.sin(t)` calls become a parameter `sinF : ℚ → ℚ`.  Exact arithmetic
(`ℚ`) stands in for IEEE doubles; none of the proved claims depend on the
concrete transcendental values.
-/

namespace FaceGuard

/-- Byte store as in a Node `Buffer` write of a clamped value: JS computes
`Math.max(0, Math.min(255, v))` and the buffer stores the integer part
(truncation towards zero equals `⌊·⌋` on the nonnegative result).
Mirrors `route.ts` lines 60-62. -/
def clampByte (v : ℚ) : ℕ := Int.toNat ⌊max 0 (min 255 v)⌋

/-- Out-of-bounds `List.set` is a no-op, exactly like an out-of-bounds
Node `Buffer` element store; `getD _ _ 0` reads a byte. -/
def bufGet (l : List ℕ) (i : ℕ) : ℕ := l.getD i 0

/-- PRNG state initialisation, `route.ts` lines 47-50 and 137-140:
`seedValue = (seedValue + seed.charCodeAt(i) * (i + 1)) % 100000` over the
seed string (ASCII seeds: `charCodeAt` agrees with `Char.toNat`). -/
def seedInit (seed : String) : ℕ :=
  seed.toList.enum.foldl (fun a p => (a + p.2.toNat * (p.1 + 1)) % 100000) 0

/-- Aggression level of the shield, `route.ts` line 40. -/
inductive Aggression where
  | normal
  | high
deriving DecidableEq

/-- Per-level strengths, `route.ts` lines 42-44. -/
structure Strength where
  noise : ℕ
  shift : ℕ
  warp : ℚ

/-- `route.ts` lines 42-44. -/
def strengthOf : Aggression → Strength
  | .normal => ⟨20, 3, 2⟩
  | .high => ⟨40, 5, 3⟩

/-- Number of iterations of `for (let i = 0; i < len; i += channels)`. -/
def numIters (len channels : ℕ) : ℕ := (len + channels - 1) / channels

/-- One iteration of Layer 1 (high-frequency noise), `route.ts` lines 58-63.
The three channel writes are sequential, reading the current buffer, as in
the source (relevant when `channels < 3` makes the strides overlap). -/
def noiseStep (nv : ℚ) (i : ℕ) (l : List ℕ) : List ℕ :=
  let l1 := l.set i (clampByte ((bufGet l i : ℚ) + nv))
  let l2 := l1.set (i + 1) (clampByte ((bufGet l1 (i + 1) : ℚ) + nv))
  l2.set (i + 2) (clampByte ((bufGet l2 (i + 2) : ℚ) + nv))

/-- Layer 1, `route.ts` lines 57-63: iteration `t` works at offset
`t * channels` and consumes the PRNG draw at state `s0 + t`. -/
def noiseLayer (rnd : ℕ → ℚ) (noiseStrength : ℚ) (channels s0 : ℕ)
    (px : List ℕ) : List ℕ :=
  (List.range (numIters px.length channels)).foldl
    (fun l t => noiseStep ((rnd (s0 + t) - 1/2) * noiseStrength) (t * channels) l) px

/-- Row-major pixel coordinate list: `for y in [0,h) { for x in [0,w) }`. -/
def pixelList (w h : ℕ) : List (ℕ × ℕ) :=
  (List.range h).flatMap fun y => (List.range w).map fun x => (y, x)

/-- One pixel of Layer 2 (chromatic aberration), `route.ts` lines 69-77.
`snap` is the pre-layer snapshot (`shiftedPixels`).  Note both coordinates
are shifted for R (`y+shift, x+shift`) and for B (`y-shift, x-shift`);
`ℕ` subtraction is the source's `Math.max(0, ...)` clamp. -/
def chromaticStep (snap : List ℕ) (w h channels shift : ℕ)
    (l : List ℕ) (yx : ℕ × ℕ) : List ℕ :=
  let base := (yx.1 * w + yx.2) * channels
  let rSrc := (min (h - 1) (yx.1 + shift) * w + min (w - 1) (yx.2 + shift)) * channels
  let bSrc := ((yx.1 - shift) * w + (yx.2 - shift)) * channels
  ((l.set base (bufGet snap rSrc)).set (base + 1) (bufGet snap (base + 1))).set
    (base + 2) (bufGet snap (bSrc + 2))

/-- Layer 2, `route.ts` lines 66-79 (the `shift > 0` guard is kept in
`applyAiShielding`).  The snapshot is the buffer as the layer starts. -/
def chromaticLayer (shift : ℕ) (px : List ℕ) (w h channels : ℕ) : List ℕ :=
  (pixelList w h).foldl (chromaticStep px w h channels shift) px

/-- One pixel of Layer 3 (micro-warp), `route.ts` lines 86-95.  `s1` is the
PRNG integer state after Layer 1 (`seedValue`, read but not advanced). -/
def warpStep (sinF : ℚ → ℚ) (snap : List ℕ) (w h channels : ℕ) (warp : ℚ)
    (s1 : ℕ) (l : List ℕ) (yx : ℕ × ℕ) : List ℕ :=
  let xOff : ℤ := ⌊sinF ((yx.1 : ℚ) / 12 + s1) * warp⌋
  let yOff : ℤ := ⌊sinF ((yx.2 : ℚ) / 12 + s1) * warp⌋
  let srcX : ℕ := Int.toNat (max 0 (min ((w : ℤ) - 1) ((yx.2 : ℤ) + xOff)))
  let srcY : ℕ := Int.toNat (max 0 (min ((h : ℤ) - 1) ((yx.1 : ℤ) + yOff)))
  let dst := (yx.1 * w + yx.2) * channels
  let src := (srcY * w + srcX) * channels
  ((l.set dst (bufGet snap src)).set (dst + 1) (bufGet snap (src + 1))).set
    (dst + 2) (bufGet snap (src + 2))

/-- Layer 3, `route.ts` lines 82-98. -/
def warpLayer (sinF : ℚ → ℚ) (warp : ℚ) (s1 : ℕ) (px : List ℕ)
    (w h channels : ℕ) : List ℕ :=
  (pixelList w h).foldl (warpStep sinF px w h channels warp s1) px

/-- The perturbation engine `applyAiShielding`, `route.ts` lines 34-99:
Layer 1 (noise), then Layer 2 (chromatic shift) on a snapshot, then
Layer 3 (warp) on a snapshot; no validation of any kind is performed.
Layer 1 consumes one PRNG draw per stride, so Layer 3 sees integer state
`s0 + numIters`. -/
def applyAiShielding (rnd : ℕ → ℚ) (sinF : ℚ → ℚ) (px : List ℕ)
    (w h channels : ℕ) (seed : String) (aggression : Aggression) : List ℕ :=
  let st := strengthOf aggression
  let s0 := seedInit seed
  let n1 := numIters px.length channels
  let px1 := noiseLayer rnd (st.noise : ℚ) channels s0 px
  let px2 := if 0 < st.shift then chromaticLayer st.shift px1 w h channels else px1
  if 0 < st.warp then warpLayer sinF st.warp (s0 + n1) px2 w h channels else px2

/-! ### Receipt records

The source keeps the receipt as a duck-typed `Record<string, any>`
(`route.ts` lines 332-344) whose values here are strings and nonnegative
integers; we model it as an association list in insertion order, with
in-place property assignment as a key-preserving value replacement. -/

/-- A JSON-able receipt value (only strings and nonnegative integers occur). -/
inductive JVal where
  | s (v : String)
  | n (v : ℕ)
deriving DecidableEq

/-- A duck-typed record in insertion order. -/
def RObj := List (String × JVal)

instance : DecidableEq RObj := inferInstanceAs (DecidableEq (List (String × JVal)))

/-- Property read, `receipt.k`. -/
def rget (r : RObj) (k : String) : Option JVal := (r.find? (·.1 = k)).map (·.2)

/-- Property read defaulting to the empty string (a missing JS property is
`undefined`, which is falsy exactly like `""` in the truthiness tests the
source performs on these fields). -/
def rgetS (r : RObj) (k : String) : String :=
  match rget r k with
  | some (.s v) => v
  | _ => ""

/-- Property assignment `r.k = v` on an existing key (all assignments in the
source overwrite keys present since the literal at lines 332-344). -/
def rset (r : RObj) (k : String) (v : JVal) : RObj :=
  r.map fun p => if p.1 = k then (p.1, v) else p

/-! ### Watermark payload (`route.ts` lines 112-128) -/

/-- `n.toString(2)` of JavaScript: most-significant-first binary digits. -/
def natToBin (n : ℕ) : List Bool := (Nat.toDigits 2 n).map (· == '1')

/-- `.padStart(8, '0')` on a bit string. -/
def pad8 (l : List Bool) : List Bool := List.replicate (8 - l.length) false ++ l

/-- One character of the watermark text, `charCodeAt(0).toString(2).padStart(8, '0')`. -/
def charBits (c : Char) : List Bool := pad8 (natToBin c.toNat)

/-- The checksum appended to the payload: sum of char codes mod 256
(`route.ts` line 127). -/
def checksum (s : String) : ℕ := (s.toList.foldl (fun a c => a + c.toNat) 0) % 256

/-- `watermarkBinary`: the text's 8-bit codes followed by the 8-bit checksum
(`route.ts` lines 122-128). -/
def watermarkBits (text : String) : List Bool :=
  text.toList.flatMap charBits ++ pad8 (natToBin (checksum text))

/-- The watermark text built at `route.ts` lines 112-120 from the receipt's
`seed` and `final_sha256`: the hash fragment is the first 32 characters of
`final_sha256` when that field is truthy and not the `'pending'`
placeholder, else 32 `'0'`s. -/
def watermarkText (seed fsha : String) : String :=
  let hashPayload := if fsha ≠ "" ∧ fsha ≠ "pending" then fsha.take 32
    else String.mk (List.replicate 32 '0')
  "FG-WARN" ++ "::" ++ "FACEGUARD_DO_NOT_EDIT_OR_MANIPULATE" ++ "::" ++
    (seed ++ "::" ++ hashPayload ++ "::" ++ "SASHA")

/-! ### LSB embedding loop (`route.ts` lines 146-172) -/

/-- `Math.floor(seededRandom() * totalPixels)` at PRNG state `s`. -/
def drawPixel (rnd : ℕ → ℚ) (tp s : ℕ) : ℕ := Int.toNat ⌊rnd s * (tp : ℚ)⌋

/-- `Math.floor(seededRandom() * 3)` at PRNG state `s`. -/
def drawChan (rnd : ℕ → ℚ) (s : ℕ) : ℕ := Int.toNat ⌊rnd s * 3⌋

/-- `(pixels[channelIdx] & 0xFE) | bit`, `route.ts` line 163. -/
def putLSB (v : ℕ) (b : Bool) : ℕ := (v &&& 254) ||| (if b then 1 else 0)

/-- State of the embedding `while` loop: the pixel buffer `px`
(`pixels`), the used-index set `used` (`usedIndices`, as a duplicate-free
list), `bi` (`bitIndex`), and the PRNG integer state `s` (`seedValue`).
`wr` is a ghost log of the channel indices written, in reverse order; it is
not source state and only lets the write-once claims be stated. -/
structure EmbedSt where
  px : List ℕ
  used : List ℕ
  bi : ℕ
  s : ℕ
  wr : List ℕ
deriving DecidableEq

/-- The `while (bitIndex < watermarkBinary.length)` loop of
`route.ts` lines 149-172, with explicit fuel (the source loop's termination
depends on the transcendental draw sequence).  Each iteration consumes two
draws; a draw pair that collides with `usedIndices` or falls outside the
buffer is skipped (`continue`), an accepted pair writes one payload bit
into the LSB of channel `pixelNum * 4 + channelNum`, and the safety break
fires after a write once `usedIndices.size >= totalPixels * 3`. -/
def embedLoop (rnd : ℕ → ℚ) (tp : ℕ) (bits : List Bool) : ℕ → EmbedSt → EmbedSt
  | 0, st => st
  | fuel + 1, st =>
    if st.bi < bits.length then
      let p := drawPixel rnd tp st.s
      let c := drawChan rnd (st.s + 1)
      if p * 3 + c ∈ st.used ∨ p * 4 ≥ st.px.length then
        embedLoop rnd tp bits fuel { st with s := st.s + 2 }
      else
        let idx := p * 4 + c
        let st' : EmbedSt :=
          { px := st.px.set idx (putLSB (bufGet st.px idx) (bits.getD st.bi false)),
            used := (p * 3 + c) :: st.used, bi := st.bi + 1, s := st.s + 2,
            wr := idx :: st.wr }
        if 3 * tp ≤ st'.used.length then st' else embedLoop rnd tp bits fuel st'
    else st

/-- `embedInvisibleWatermark`, `route.ts` lines 106-173: build the payload
bit string from the receipt's `seed` and `final_sha256`, seed the PRNG from
`receipt.seed`, and run the LSB loop (the over-capacity case only logs a
warning in the source — no error, no abort). -/
def embedInvisibleWatermark (rnd : ℕ → ℚ) (fuel : ℕ) (px : List ℕ)
    (w h : ℕ) (receipt : RObj) : EmbedSt :=
  let seed := rgetS receipt "seed"
  let bits := watermarkBits (watermarkText seed (rgetS receipt "final_sha256"))
  embedLoop rnd (w * h) bits fuel ⟨px, [], 0, seedInit seed, []⟩

/-- State of the extraction loop: recovered bits `acc`, used-index set and
PRNG state as in embedding. -/
structure ExtractSt where
  acc : List Bool
  used : List ℕ
  s : ℕ
deriving DecidableEq

/-- Modelled from the spec: the repository contains no watermark extractor
(only the embedder is in `src`); §4.4 "Extract" says to "replay the
identical PRNG sequence from the same seed, in the same accept/reject
order, to recover the ordered bit positions" and read the LSBs back.  This
mirrors `embedLoop` draw for draw — same PRNG, same collision skip, same
out-of-bounds skip, same safety break — reading `n` bits from `px`. -/
def extractLoop (rnd : ℕ → ℚ) (tp : ℕ) (px : List ℕ) (n : ℕ) :
    ℕ → ExtractSt → ExtractSt
  | 0, et => et
  | fuel + 1, et =>
    if et.acc.length < n then
      let p := drawPixel rnd tp et.s
      let c := drawChan rnd (et.s + 1)
      if p * 3 + c ∈ et.used ∨ p * 4 ≥ px.length then
        extractLoop rnd tp px n fuel { et with s := et.s + 2 }
      else
        let et' : ExtractSt :=
          { acc := et.acc ++ [bufGet px (p * 4 + c) % 2 == 1],
            used := (p * 3 + c) :: et.used, s := et.s + 2 }
        if 3 * tp ≤ et'.used.length then et' else extractLoop rnd tp px n fuel et'
    else et

/-! ### Receipt canonicalization and signing message (`route.ts` lines 224-238)

`signPayload` serializes with
`JSON.stringify(payload, Object.keys(payload).sort())`: a replacer array
listing every own key in lexicographic (UTF-16 code unit) order, so the
output is the JSON object with all keys sorted — the `signature` key is
not removed.  String values in this pipeline are hex digests and plain
identifiers, so JSON string escaping never fires and plain quoting is
exact. -/

/-- JSON string quoting (escape-free value set, see above). -/
def jquote (s : String) : String := "\"" ++ s ++ "\""

/-- JSON rendering of a receipt value. -/
def jvalStr : JVal → String
  | .s v => jquote v
  | .n v => toString v

/-- One `"key":value` member. -/
def entryStr (p : String × JVal) : String := jquote p.1 ++ ":" ++ jvalStr p.2

/-- Strict lexicographic order on code points (for the ASCII receipt keys
this is exactly the UTF-16 code-unit order JS `Array.sort`'s default
comparator uses). -/
def charListLt : List Char → List Char → Bool
  | [], [] => false
  | [], _ :: _ => true
  | _ :: _, [] => false
  | a :: as, b :: bs => if a < b then true else if b < a then false else charListLt as bs

/-- `a` sorts before `b`. -/
def keyLt (a b : String) : Bool := charListLt a.toList b.toList

/-- The record's entries in ascending key order (`Object.keys(payload).sort()`). -/
def sortEntries (r : RObj) : RObj :=
  List.insertionSort (fun a b => keyLt b.1 a.1 = false) r

/-- `JSON.stringify(payload, Object.keys(payload).sort())`: the braces around
the comma-joined sorted members. -/
def stringifySorted (r : RObj) : String :=
  "\x7b" ++ String.intercalate "," ((sortEntries r).map entryStr) ++ "\x7d"

/-! ### Base64 and the final data URI (`route.ts` line 364) -/

/-- The standard base64 alphabet. -/
def b64Char (n : ℕ) : Char :=
  "ABCDEFGHIJKLMNOPQRSTUVWXYZabcdefghijklmnopqrstuvwxyz0123456789+/".toList.getD n 'A'

/-- RFC 4648 base64 of a byte list, as `Buffer.toString('base64')`. -/
def base64 : List ℕ → String
  | [] => ""
  | [a] => String.mk [b64Char (a / 4), b64Char (a % 4 * 16), '=', '=']
  | [a, b] => String.mk [b64Char (a / 4), b64Char (a % 4 * 16 + b / 16),
      b64Char (b % 16 * 4), '=']
  | a :: b :: c :: rest =>
    String.mk [b64Char (a / 4), b64Char (a % 4 * 16 + b / 16),
      b64Char (b % 16 * 4 + c / 64), b64Char (c % 64)] ++ base64 rest

/-! ### The POST success path, steps 5-8 (`route.ts` lines 331-372)

Steps 1-4 of the handler (data-URI decode, `sharp` raw decode,
`detectFaces`, the shielding calls and the protection score) run external
libraries and a remote model; their outputs — the shielded pixel buffer,
the original hash, the score, the face count, the timestamp, the server's
public key and the derived seed — enter here as parameters, which keeps
every successful run covered.  The two `sharp(...).jpeg(...).toBuffer()`
encoders (line 348 plain, lines 355-357 quality-95 mozjpeg), the SHA-256
hex digest and the Ed25519 signer are likewise external, abstracted as
`enc1`, `enc2`, `sha` and `sign`. -/

/-- Result of the success path: `finalBytes` are the bytes returned (and
base64-embedded in `processedImageUri`), `h1` is the intermediate hash
stored into `receipt.final_sha256` at line 349 before embedding,
`signedObj`/`signedMessage` are the record passed to `signPayload` at line
361 and the exact string it signs, `receipt` is the record as returned. -/
structure PipeResult where
  h1 : String
  finalBytes : List ℕ
  signedObj : RObj
  signedMessage : String
  receipt : RObj
  processedImageUri : String
  hash : String
deriving DecidableEq

/-- The initial receipt literal, `route.ts` lines 332-344. -/
def mkReceipt (origHash seed pubKey : String) (score facesN ts : ℕ) : RObj :=
  [("version", .s "6.0_revolutionary_face_aware"), ("owner", .s "SASHA"),
   ("orig_sha256", .s origHash), ("seed", .s seed), ("timestamp", .n ts),
   ("public_key", .s pubKey), ("protection_level", .s "aggressive"),
   ("protection_score", .n score), ("faces_detected", .n facesN),
   ("final_sha256", .s "pending"), ("signature", .s "pending")]

/-- Steps 5-8 of `POST`, `route.ts` lines 331-372: hash the encoding of the
shielded (not yet watermarked) pixels into `final_sha256`; embed the
watermark (which reads that hash's first 32 chars); encode the watermarked
pixels into the final bytes; overwrite `final_sha256` with their hash; sign
the receipt (whose `signature` field still holds `'pending'`); return the
data URI over the final bytes. -/
def POSTcore (sha : List ℕ → String) (enc1 enc2 : List ℕ → List ℕ)
    (sign : String → String) (rnd : ℕ → ℚ) (fuel : ℕ) (shielded : List ℕ)
    (w h : ℕ) (mime origHash seed pubKey : String) (score facesN ts : ℕ) :
    PipeResult :=
  let receipt0 := mkReceipt origHash seed pubKey score facesN ts
  let h1 := sha (enc1 shielded)
  let receipt1 := rset receipt0 "final_sha256" (.s h1)
  let wm := embedInvisibleWatermark rnd fuel shielded w h receipt1
  let finalBytes := enc2 wm.px
  let h2 := sha finalBytes
  let receipt2 := rset receipt1 "final_sha256" (.s h2)
  let msg := stringifySorted receipt2
  let receipt3 := rset receipt2 "signature" (.s (sign msg))
  { h1 := h1, finalBytes := finalBytes, signedObj := receipt2,
    signedMessage := msg, receipt := receipt3,
    processedImageUri := "data:" ++ mime ++ ";base64," ++ base64 finalBytes,
    hash := rgetS receipt3 "final_sha256" }

/-- The spec's §4.5 two-pass protocol, written from its words for
comparison with `POSTcore` (this is the claim's reference point, not
source code): Pass 1 embeds the placeholder payload (hash fragment
`'0'.repeat(32)`, i.e. `final_sha256 = 'pending'`) into a copy of the
shielded buffer, encodes, and hashes those bytes into `H1`; Pass 2
re-embeds using `H1` as hash fragment into a fresh copy of the
pre-watermark shielded pixels, encodes, and takes `final_sha256 = H2`. -/
def twoPassSpec (sha : List ℕ → String) (enc : List ℕ → List ℕ)
    (rnd : ℕ → ℚ) (fuel : ℕ) (shielded : List ℕ) (w h : ℕ) (seed : String) :
    String × String :=
  let bits1 := watermarkBits (watermarkText seed "pending")
  let pass1 := embedLoop rnd (w * h) bits1 fuel ⟨shielded, [], 0, seedInit seed, []⟩
  let h1 := sha (enc pass1.px)
  let bits2 := watermarkBits (watermarkText seed h1)
  let pass2 := embedLoop rnd (w * h) bits2 fuel ⟨shielded, [], 0, seedInit seed, []⟩
  (h1, sha (enc pass2.px))

/-- What the source actually does, as an independent protocol description
(the amended form of the two-pass claim): `H1` is the hash of the encoding
of the shielded pixels with no embedding at all; the single embedding uses
`H1` as hash fragment; `final_sha256` is the hash `H2` of the second
encoding. -/
def hashFirstProtocol (sha : List ℕ → String) (enc1 enc2 : List ℕ → List ℕ)
    (rnd : ℕ → ℚ) (fuel : ℕ) (shielded : List ℕ) (w h : ℕ) (seed : String) :
    String × List ℕ × String :=
  let h1 := sha (enc1 shielded)
  let em := embedLoop rnd (w * h) (watermarkBits (watermarkText seed h1)) fuel
    ⟨shielded, [], 0, seedInit seed, []⟩
  let finalBytes := enc2 em.px
  (h1, finalBytes, sha finalBytes)

/-! ### Generic helper lemmas -/

lemma bufGet_set_ne (l : List ℕ) (i j v : ℕ) (h : i ≠ j) :
    bufGet (l.set i v) j = bufGet l j := by
  simp [bufGet, List.getD_eq_getElem?_getD, List.getElem?_set_ne h]

lemma bufGet_set_self (l : List ℕ) (i v : ℕ) (h : i < l.length) :
    bufGet (l.set i v) i = v := by
  simp [bufGet, List.getD_eq_getElem?_getD, List.getElem?_set_self, h]

lemma land254_mod_two (n : ℕ) : (n &&& 254) % 2 = 0 := by
  rw [← Nat.and_one_is_mod, Nat.and_assoc,
    show (254 &&& 1 : ℕ) = 0 from by decide, Nat.and_zero]

lemma putLSB_mod_two (v : ℕ) (b : Bool) : putLSB v b % 2 = if b then 1 else 0 := by
  rw [putLSB, ← Nat.and_one_is_mod, Nat.and_distrib_right]
  have h : v &&& 254 &&& 1 = 0 := by
    rw [Nat.and_assoc, show (254 &&& 1 : ℕ) = 0 from by decide, Nat.and_zero]
  rw [h, Nat.zero_or]
  cases b <;> rfl

lemma putLSB_read_back (v : ℕ) (b : Bool) : (putLSB v b % 2 == 1) = b := by
  rw [putLSB_mod_two]
  cases b <;> rfl

set_option maxRecDepth 2048 in
lemma putLSB_byte : ∀ v < 256, ∀ b : Bool,
    putLSB v b < 256 ∧ putLSB v b / 2 = v / 2 := by decide

/-- A fold whose every step leaves position `j` alone leaves position `j`
alone. -/
lemma foldl_bufGet_eq {α : Type} (g : List ℕ → α → List ℕ) (L : List α)
    (j : ℕ) (h : ∀ l a, a ∈ L → bufGet (g l a) j = bufGet l j) :
    ∀ l, bufGet (L.foldl g l) j = bufGet l j := by
  induction L with
  | nil => intro l; rfl
  | cons a L ih =>
    intro l
    rw [List.foldl_cons, ih (fun l b hb => h l b (List.mem_cons_of_mem a hb)),
      h l a (List.mem_cons_self a L)]

/-- A fold of length-preserving steps preserves length. -/
lemma foldl_length_eq {α : Type} (g : List ℕ → α → List ℕ) (L : List α)
    (h : ∀ l a, a ∈ L → (g l a).length = l.length) :
    ∀ l, (L.foldl g l).length = l.length := by
  induction L with
  | nil => intro l; rfl
  | cons a L ih =>
    intro l
    rw [List.foldl_cons, ih (fun l b hb => h l b (List.mem_cons_of_mem a hb)),
      h l a (List.mem_cons_self a L)]

/-! ### C1: the receipt's final hash is the hash of the returned bytes -/

/-- C1: for every successful run of the protection pipeline, the returned
receipt's `final_sha256` is the digest of exactly the final encoded bytes
— the bytes that are base64-embedded in `processedImageUri` — and the
top-level `hash` field agrees. -/
theorem c1_final_sha256_is_hash_of_returned_bytes
    (sha : List ℕ → String) (enc1 enc2 : List ℕ → List ℕ)
    (sign : String → String) (rnd : ℕ → ℚ) (fuel : ℕ) (shielded : List ℕ)
    (w h : ℕ) (mime origHash seed pubKey : String) (score facesN ts : ℕ) :
    rgetS (POSTcore sha enc1 enc2 sign rnd fuel shielded w h mime origHash
        seed pubKey score facesN ts).receipt "final_sha256"
      = sha (POSTcore sha enc1 enc2 sign rnd fuel shielded w h mime origHash
        seed pubKey score facesN ts).finalBytes
    ∧ (POSTcore sha enc1 enc2 sign rnd fuel shielded w h mime origHash
        seed pubKey score facesN ts).processedImageUri
      = "data:" ++ mime ++ ";base64," ++ base64 (POSTcore sha enc1 enc2 sign
        rnd fuel shielded w h mime origHash seed pubKey score facesN ts).finalBytes
    ∧ (POSTcore sha enc1 enc2 sign rnd fuel shielded w h mime origHash
        seed pubKey score facesN ts).hash
      = sha (POSTcore sha enc1 enc2 sign rnd fuel shielded w h mime origHash
        seed pubKey score facesN ts).finalBytes :=
  ⟨rfl, rfl, rfl⟩

/-! ### C9: determinism of the perturbation -/

/-- C9: the perturbation is deterministic — two runs on byte-identical
buffers with the same dimensions, channel count, seed string and
aggression produce byte-identical output.  `rnd`/`sinF` are shared because
`Math.sin` is one fixed pure function per process: an independent second
instantiation of the seeded PRNG replays the same draw-value stream. -/
theorem c9_deterministic (rnd : ℕ → ℚ) (sinF : ℚ → ℚ) (px₁ px₂ : List ℕ)
    (w h channels : ℕ) (seed₁ seed₂ : String) (agg : Aggression)
    (hpx : px₁ = px₂) (hseed : seed₁ = seed₂) :
    applyAiShielding rnd sinF px₁ w h channels seed₁ agg
      = applyAiShielding rnd sinF px₂ w h channels seed₂ agg := by
  rw [hpx, hseed]

/-- Witness for C9 at a concrete buffer and seed. -/
theorem c9_deterministic_witness :
    ([0, 0, 0, 255] : List ℕ) = [0, 0, 0, 255] ∧ "abc123" = "abc123" ∧
    applyAiShielding (fun _ => 0) (fun _ => 0) [0, 0, 0, 255] 1 1 4 "abc123" .normal
      = applyAiShielding (fun _ => 0) (fun _ => 0) [0, 0, 0, 255] 1 1 4 "abc123" .normal :=
  ⟨rfl, rfl, c9_deterministic (fun _ => 0) (fun _ => 0) [0, 0, 0, 255]
    [0, 0, 0, 255] 1 1 4 "abc123" "abc123" .normal rfl rfl⟩

/-! ### Concrete instantiation used by counterexamples and witnesses

`rnd3` is one admissible draw stream (all values in `[0,1)`); `demoRun` is
a complete concrete run of the success path on a 1x1 RGBA image with stub
encoders (`id`) and a stub injective digest (`toString`). -/

/-- A concrete admissible PRNG draw stream. -/
def rnd3 : ℕ → ℚ := fun n => (n % 3 : ℕ) / 3

lemma rnd3_range : ∀ n, 0 ≤ rnd3 n ∧ rnd3 n < 1 := by
  intro n
  rw [rnd3]
  constructor
  · positivity
  · rw [div_lt_one (by norm_num)]
    exact_mod_cast Nat.mod_lt n (by norm_num)

/-- A concrete pipeline run (1x1 RGBA buffer, stub hash/encoders/signer). -/
def demoRun : PipeResult :=
  POSTcore (fun l => toString l) id id id rnd3 10 [0, 0, 0, 255] 1 1
    "image/png" "OH" "s" "PK" 90 0 7

/-! ### C2: what `signPayload` actually signs -/

set_option maxRecDepth 8000 in
unseal Rat.mul Rat.inv Rat.add Rat.sub in
/-- C2 counterexample: in the concrete run `demoRun`, the byte string
handed to the Ed25519 signer does contain a `signature` field — it is the
sorted-key JSON of the receipt with `"signature":"pending"` still present
(`signPayload` is called at line 361 before `receipt.signature` is
reassigned, and the replacer array `Object.keys(payload).sort()` includes
the key).  The claim that the signed bytes contain no signature field is
therefore false. -/
theorem c2_counterexample :
    rget demoRun.signedObj "signature" = some (.s "pending") ∧
    demoRun.signedMessage =
      "\x7b\"faces_detected\":0,\"final_sha256\":\"[0, 1, 0, 255]\"," ++
      "\"orig_sha256\":\"OH\",\"owner\":\"SASHA\"," ++
      "\"protection_level\":\"aggressive\",\"protection_score\":90," ++
      "\"public_key\":\"PK\",\"seed\":\"s\"," ++
      "\"signature\":\"pending\"" ++
      ",\"timestamp\":7,\"version\":\"6.0_revolutionary_face_aware\"\x7d" := by
  constructor
  · decide
  · decide

/-- C2 amended: the signature is computed over the JSON serialization of
the receipt with all keys sorted lexicographically, but the `signature`
field is not removed: it is present with its placeholder value
`'pending'`, and `final_sha256` already holds the digest of the final
bytes. -/
theorem c2_amended_signature_field_present
    (sha : List ℕ → String) (enc1 enc2 : List ℕ → List ℕ)
    (sign : String → String) (rnd : ℕ → ℚ) (fuel : ℕ) (shielded : List ℕ)
    (w h : ℕ) (mime origHash seed pubKey : String) (score facesN ts : ℕ) :
    (POSTcore sha enc1 enc2 sign rnd fuel shielded w h mime origHash seed
        pubKey score facesN ts).signedMessage
      = stringifySorted (POSTcore sha enc1 enc2 sign rnd fuel shielded w h
        mime origHash seed pubKey score facesN ts).signedObj
    ∧ rget (POSTcore sha enc1 enc2 sign rnd fuel shielded w h mime origHash
        seed pubKey score facesN ts).signedObj "signature" = some (.s "pending")
    ∧ rgetS (POSTcore sha enc1 enc2 sign rnd fuel shielded w h mime origHash
        seed pubKey score facesN ts).signedObj "final_sha256"
      = sha (POSTcore sha enc1 enc2 sign rnd fuel shielded w h mime origHash
        seed pubKey score facesN ts).finalBytes :=
  ⟨rfl, rfl, rfl⟩

/-! ### C3: the hash-in-watermark protocol -/

/-- The spec's §4.5 two-pass protocol at the same concrete instantiation
as `demoRun`. -/
def demoSpecTwoPass : String × String :=
  twoPassSpec (fun l => toString l) id rnd3 10 [0, 0, 0, 255] 1 1 "s"

set_option maxRecDepth 8000 in
unseal Rat.mul Rat.inv Rat.add Rat.sub in
/-- C3 counterexample: in the concrete run `demoRun`, the intermediate
hash H1 that the pipeline stores into `receipt.final_sha256` before
embedding (and whose first 32 chars become the embedded fragment) is the
digest of the encoding of the *unwatermarked* shielded pixels, not — as
the claim says — of a Pass-1 encoding with a placeholder payload embedded:
the two differ on this input. -/
theorem c3_counterexample : demoRun.h1 ≠ demoSpecTwoPass.1 := by decide

/-- C3 amended: the pipeline performs two hash computations but only one
embedding: H1 is computed over the encoding of the shielded, not yet
watermarked pixels (no placeholder embedding); the single embedding then
uses H1 as hash fragment on those same shielded pixels; `final_sha256` is
H2, the digest of the final encoding of the watermarked pixels. -/
theorem c3_amended_hash_first_single_embed
    (sha : List ℕ → String) (enc1 enc2 : List ℕ → List ℕ)
    (sign : String → String) (rnd : ℕ → ℚ) (fuel : ℕ) (shielded : List ℕ)
    (w h : ℕ) (mime origHash seed pubKey : String) (score facesN ts : ℕ) :
    (POSTcore sha enc1 enc2 sign rnd fuel shielded w h mime origHash seed
        pubKey score facesN ts).h1
      = (hashFirstProtocol sha enc1 enc2 rnd fuel shielded w h seed).1
    ∧ (POSTcore sha enc1 enc2 sign rnd fuel shielded w h mime origHash seed
        pubKey score facesN ts).finalBytes
      = (hashFirstProtocol sha enc1 enc2 rnd fuel shielded w h seed).2.1
    ∧ rgetS (POSTcore sha enc1 enc2 sign rnd fuel shielded w h mime origHash
        seed pubKey score facesN ts).receipt "final_sha256"
      = (hashFirstProtocol sha enc1 enc2 rnd fuel shielded w h seed).2.2 :=
  ⟨rfl, rfl, rfl⟩

/-! ### Index bookkeeping for the per-pixel layers -/

lemma linIdx_lt (y x w h : ℕ) (hy : y < h) (hx : x < w) : y * w + x < h * w :=
  calc y * w + x < (y + 1) * w := by nlinarith
  _ ≤ h * w := Nat.mul_le_mul_right w hy

lemma base_k_lt (c i n k : ℕ) (hc : 3 ≤ c) (hi : i < n) (hk : k < 3) :
    i * c + k < n * c :=
  calc i * c + k < i * c + c := by omega
  _ = (i + 1) * c := by ring
  _ ≤ n * c := Nat.mul_le_mul_right c hi

lemma base_k_ne (c i i' k k' : ℕ) (hc : 3 ≤ c) (hk : k < 3) (hk' : k' < 3)
    (hne : i ≠ i') : i * c + k ≠ i' * c + k' := by
  rcases Nat.lt_or_ge i i' with hlt | hge
  · have h1 : i * c + k < i' * c :=
      calc i * c + k < i * c + c := by omega
      _ = (i + 1) * c := by ring
      _ ≤ i' * c := Nat.mul_le_mul_right c hlt
    omega
  · have hlt : i' < i := lt_of_le_of_ne hge (Ne.symm hne)
    have h1 : i' * c + k' < i * c :=
      calc i' * c + k' < i' * c + c := by omega
      _ = (i' + 1) * c := by ring
      _ ≤ i * c := Nat.mul_le_mul_right c hlt
    omega

lemma linIdx_ne (w y x y' x' : ℕ) (hx : x < w) (hx' : x' < w)
    (hne : (y, x) ≠ (y', x')) : y * w + x ≠ y' * w + x' := by
  intro he
  apply hne
  have hyy : y = y' := by
    rcases lt_trichotomy y y' with hlt | heq | hgt
    · have : y * w + x < y' * w + x' :=
        calc y * w + x < (y + 1) * w := by nlinarith
        _ ≤ y' * w := Nat.mul_le_mul_right w hlt
        _ ≤ y' * w + x' := Nat.le_add_right _ _
      omega
    · exact heq
    · have : y' * w + x' < y * w + x :=
        calc y' * w + x' < (y' + 1) * w := by nlinarith
        _ ≤ y * w := Nat.mul_le_mul_right w hgt
        _ ≤ y * w + x := Nat.le_add_right _ _
      omega
  subst hyy
  have : x = x' := by omega
  rw [this]

/-- Folding steps that each leave `j` alone, except for a unique element `a`
that writes the `l`-independent value `v` at `j`, yields `v` at `j`. -/
lemma foldl_write_once {α : Type} [DecidableEq α] (g : List ℕ → α → List ℕ)
    (L : List α) (j v n : ℕ) (a : α) (hL : L.Nodup) (ha : a ∈ L)
    (hwrite : ∀ l : List ℕ, l.length = n → bufGet (g l a) j = v)
    (hlen : ∀ (l : List ℕ) (b), b ∈ L → (g l b).length = l.length)
    (hpres : ∀ (l : List ℕ) (b), b ∈ L → b ≠ a → bufGet (g l b) j = bufGet l j) :
    ∀ l : List ℕ, l.length = n → bufGet (L.foldl g l) j = v := by
  induction L with
  | nil => cases ha
  | cons b L ih =>
    intro l hl
    rw [List.foldl_cons]
    rcases List.nodup_cons.mp hL with ⟨hbL, hLnd⟩
    by_cases hba : b = a
    · subst hba
    -- the head writes; the tail never touches `j` again
      have hout : bufGet (L.foldl g (g l b)) j = bufGet (g l b) j :=
        foldl_bufGet_eq g L j
          (fun l' c hc => hpres l' c (List.mem_cons_of_mem b hc)
            (fun hcb => hbL (hcb ▸ hc))) (g l b)
      rw [hout, hwrite l hl]
    · have haL : a ∈ L := by
        rcases List.mem_cons.mp ha with h | h
        · exact absurd h.symm hba
        · exact h
      exact ih hLnd haL
        (fun l' c hc => hlen l' c (List.mem_cons_of_mem b hc))
        (fun l' c hc hca => hpres l' c (List.mem_cons_of_mem b hc) hca)
        (g l b) (by rw [hlen l b (List.mem_cons_self b L)]; exact hl)

/-! ### Pointwise characterization of the chromatic-shift layer -/

lemma chromaticStep_length (snap : List ℕ) (w h c shift : ℕ) (l : List ℕ)
    (yx : ℕ × ℕ) : (chromaticStep snap w h c shift l yx).length = l.length := by
  simp [chromaticStep]

lemma chromaticStep_bufGet_out (snap : List ℕ) (w h c shift : ℕ) (l : List ℕ)
    (yx : ℕ × ℕ) (j : ℕ)
    (hj : ∀ k, k < 3 → (yx.1 * w + yx.2) * c + k ≠ j) :
    bufGet (chromaticStep snap w h c shift l yx) j = bufGet l j := by
  rw [chromaticStep]
  rw [bufGet_set_ne _ _ _ _ (hj 2 (by omega)), bufGet_set_ne _ _ _ _ (hj 1 (by omega))]
  exact bufGet_set_ne _ _ _ _ (by simpa using hj 0 (by omega))

lemma pixelList_nodup (w h : ℕ) : (pixelList w h).Nodup := by
  have : pixelList w h = (List.range h).product (List.range w) := rfl
  rw [this]
  exact List.Nodup.product (List.nodup_range h) (List.nodup_range w)

lemma pixelList_mem (w h y x : ℕ) : (y, x) ∈ pixelList w h ↔ y < h ∧ x < w := by
  have : pixelList w h = (List.range h).product (List.range w) := rfl
  rw [this, List.pair_mem_product, List.mem_range, List.mem_range]

/-- Where each channel of each pixel of the chromatic-shift layer's output
comes from: `R` is read from the snapshot at `(x+shift, y+shift)`, `G` at
`(x, y)` (unchanged), `B` at `(x-shift, y-shift)`, every coordinate clamped
to bounds. -/
lemma chromaticLayer_bufGet (px : List ℕ) (w h c shift x y : ℕ) (hc : 3 ≤ c)
    (hl : px.length = w * h * c) (hx : x < w) (hy : y < h) :
    bufGet (chromaticLayer shift px w h c) ((y * w + x) * c)
      = bufGet px ((min (h - 1) (y + shift) * w + min (w - 1) (x + shift)) * c)
    ∧ bufGet (chromaticLayer shift px w h c) ((y * w + x) * c + 1)
      = bufGet px ((y * w + x) * c + 1)
    ∧ bufGet (chromaticLayer shift px w h c) ((y * w + x) * c + 2)
      = bufGet px (((y - shift) * w + (x - shift)) * c + 2) := by
  have hlen : ∀ (l : List ℕ) (b : ℕ × ℕ), b ∈ pixelList w h →
      (chromaticStep px w h c shift l b).length = l.length :=
    fun l b _ => chromaticStep_length px w h c shift l b
  have hpres : ∀ k, k < 3 → ∀ (l : List ℕ) (b : ℕ × ℕ), b ∈ pixelList w h →
      b ≠ (y, x) →
      bufGet (chromaticStep px w h c shift l b) ((y * w + x) * c + k)
        = bufGet l ((y * w + x) * c + k) := by
    intro k hk l b hb hbne
    rcases (pixelList_mem w h b.1 b.2).mp (by simpa using hb) with ⟨hb1, hb2⟩
    refine chromaticStep_bufGet_out px w h c shift l b _ (fun k' hk' => ?_)
    exact base_k_ne c (b.1 * w + b.2) (y * w + x) k' k hc hk' hk
      (linIdx_ne w b.1 b.2 y x hb2 hx (by simpa using hbne))
  have hinb : ∀ k, k < 3 → ∀ l : List ℕ, l.length = px.length →
      (y * w + x) * c + k < l.length := by
    intro k hk l hl'
    rw [hl', hl, Nat.mul_comm w h]
    exact base_k_lt c (y * w + x) (h * w) k hc (linIdx_lt y x w h hy hx) hk
  have hwr : ∀ k, k < 3 → ∀ l : List ℕ, l.length = px.length →
      bufGet (chromaticStep px w h c shift l (y, x)) ((y * w + x) * c + k)
        = bufGet px (if k = 0 then
            (min (h - 1) (y + shift) * w + min (w - 1) (x + shift)) * c
          else if k = 1 then (y * w + x) * c + 1
          else ((y - shift) * w + (x - shift)) * c + 2) := by
    intro k hk l hl'
    rw [chromaticStep]
    dsimp only
    have h0 : (y * w + x) * c < l.length := by simpa using hinb 0 (by omega) l hl'
    have h1 : (y * w + x) * c + 1 < l.length := hinb 1 (by omega) l hl'
    have h2 : (y * w + x) * c + 2 < l.length := hinb 2 (by omega) l hl'
    interval_cases k
    · rw [bufGet_set_ne _ _ _ _ (by omega), bufGet_set_ne _ _ _ _ (by omega),
        Nat.add_zero, bufGet_set_self _ _ _ (by simpa using h0)]
      simp
    · rw [bufGet_set_ne _ _ _ _ (by omega),
        bufGet_set_self _ _ _ (by simp [h1])]
      simp
    · rw [bufGet_set_self _ _ _ (by simp [h2])]
      simp
  have key : ∀ k, k < 3 →
      bufGet (chromaticLayer shift px w h c) ((y * w + x) * c + k)
        = bufGet px (if k = 0 then
            (min (h - 1) (y + shift) * w + min (w - 1) (x + shift)) * c
          else if k = 1 then (y * w + x) * c + 1
          else ((y - shift) * w + (x - shift)) * c + 2) := by
    intro k hk
    exact foldl_write_once (chromaticStep px w h c shift) (pixelList w h)
      ((y * w + x) * c + k) _ px.length (y, x) (pixelList_nodup w h)
      ((pixelList_mem w h y x).mpr ⟨hy, hx⟩) (hwr k hk) hlen (hpres k hk) px rfl
  refine ⟨?_, ?_, ?_⟩
  · simpa using key 0 (by omega)
  · simpa using key 1 (by omega)
  · simpa using key 2 (by omega)

/-! ### C6: the chromatic-shift layer's source coordinates -/

/-- A 1x4 RGBA column image whose rows carry distinct red values. -/
def c6px : List ℕ := [0, 0, 0, 255, 10, 0, 0, 255, 20, 0, 0, 255, 30, 0, 0, 255]

/-- C6 counterexample: on the 1x4 RGBA image `c6px` with `shift = 3`, the
new R value of pixel `(x, y) = (0, 0)` is not sampled from the claim's
coordinate `(x+shift, y)` — clamped to `(0, 0)`, i.e. snapshot index
`(0 * 1 + min (1-1) (0+3)) * 4` — because the source also displaces the
row (`y+shift`): the layer reads row 3's red value 30, not row 0's 0. -/
theorem c6_counterexample :
    bufGet (chromaticLayer 3 c6px 1 4 4) ((0 * 1 + 0) * 4)
      ≠ bufGet c6px ((0 * 1 + min (1 - 1) (0 + 3)) * 4) := by decide

/-- C6 amended: in the chromatic-shift layer, for every pixel `(x, y)` of a
`w x h` buffer with at least 3 channels, the new R value is sampled from
the pre-layer snapshot at `(x+shift, y+shift)` and the new B value at
`(x-shift, y-shift)` — both coordinates (column and row) shifted and
clamped to image bounds — while G is unchanged. -/
theorem c6_amended_chromatic_shift_displaces_rows
    (px : List ℕ) (w h channels shift x y : ℕ) (hc : 3 ≤ channels)
    (hl : px.length = w * h * channels) (hx : x < w) (hy : y < h) :
    bufGet (chromaticLayer shift px w h channels) ((y * w + x) * channels)
      = bufGet px ((min (h - 1) (y + shift) * w + min (w - 1) (x + shift)) * channels)
    ∧ bufGet (chromaticLayer shift px w h channels) ((y * w + x) * channels + 1)
      = bufGet px ((y * w + x) * channels + 1)
    ∧ bufGet (chromaticLayer shift px w h channels) ((y * w + x) * channels + 2)
      = bufGet px (((y - shift) * w + (x - shift)) * channels + 2) :=
  chromaticLayer_bufGet px w h channels shift x y hc hl hx hy

/-- Witness for the amended C6 at pixel `(0, 0)` of `c6px`. -/
theorem c6_amended_witness :
    3 ≤ 4 ∧ c6px.length = 1 * 4 * 4 ∧ 0 < 1 ∧ 0 < 4 ∧
    bufGet (chromaticLayer 3 c6px 1 4 4) ((0 * 1 + 0) * 4)
      = bufGet c6px ((min (4 - 1) (0 + 3) * 1 + min (1 - 1) (0 + 3)) * 4) :=
  ⟨by omega, by decide, by omega, by omega,
    (c6_amended_chromatic_shift_displaces_rows c6px 1 4 4 3 0 0 (by omega)
      (by decide) (by omega) (by omega)).1⟩

/-! ### C8: no channel-count validation in the perturbation engine -/

/-- The constant admissible draw `3/4` (so the first noise value is `+5`). -/
def rnd34 : ℕ → ℚ := fun _ => 3/4

/-- A concrete stand-in for `Math.sin` in the warp layer. -/
def sinF0 : ℚ → ℚ := fun _ => 0

set_option maxRecDepth 8000 in
unseal Rat.mul Rat.inv Rat.add Rat.sub in
/-- C8 counterexample: called on a 1-channel 1x1 buffer (`channels = 1 < 3`)
the perturbation engine does not reject — there is no validation anywhere
in `applyAiShielding` — and it mutates the pixel data: the single sample
`0` becomes `5`. -/
theorem c8_counterexample :
    applyAiShielding rnd34 sinF0 [0] 1 1 1 "s" .normal ≠ [0] := by decide

/-- Writing back the value already present is a no-op. -/
lemma set_bufGet_self (l : List ℕ) (i : ℕ) : l.set i (bufGet l i) = l := by
  rcases Nat.lt_or_ge i l.length with h | h
  · apply List.ext_getElem (by simp)
    intro n h1 h2
    rw [List.getElem_set]
    split
    · next heq => subst heq; exact (List.getD_eq_getElem l 0 h).symm ▸ rfl
    · rfl
  · exact List.set_eq_of_length_le h

/-- On a 1x1 image the warp layer is the identity: both displaced
coordinates clamp to `(0, 0)` and the three writes copy the snapshot onto
itself. -/
lemma warpLayer_1x1 (sinF : ℚ → ℚ) (warp : ℚ) (s1 c : ℕ) (l : List ℕ) :
    warpLayer sinF warp s1 l 1 1 c = l := by
  rw [warpLayer, show pixelList 1 1 = [(0, 0)] from rfl, List.foldl_cons,
    List.foldl_nil, warpStep]
  dsimp only
  simp only [Nat.cast_zero, Nat.cast_one]
  generalize ⌊sinF (0 / 12 + (s1 : ℚ)) * warp⌋ = z
  rw [show ((0 : ℤ) ⊔ ((1 : ℤ) - 1) ⊓ (0 + z)).toNat = 0 from by omega]
  rw [set_bufGet_self, set_bufGet_self, set_bufGet_self]

unseal Rat.mul Rat.inv Rat.add Rat.sub in
/-- C8 amended: `applyAiShielding` performs no validation at all: for a
`channels = 1` input it does not reject and proceeds to mutate the buffer.
Concretely, on a 1x1 one-channel buffer `[0]` with seed `"s"`, whenever
the PRNG draw at the derived state 115 is `3/4`, the noise layer rewrites
the sample to `5` (the chromatic and warp layers then leave the mutated
1x1 buffer unchanged), whatever `Math.sin` stand-in the warp layer uses. -/
theorem c8_amended_no_validation_mutates (rnd : ℕ → ℚ) (sinF : ℚ → ℚ)
    (hdraw : rnd 115 = 3/4) :
    applyAiShielding rnd sinF [0] 1 1 1 "s" .normal = [5] := by
  have hn : noiseLayer rnd (((20 : ℕ) : ℚ)) 1 115 [0] = [5] := by
    show noiseStep ((rnd (115 + 0) - 1/2) * ((20 : ℕ) : ℚ)) (0 * 1) [0] = [5]
    rw [show (115 + 0 : ℕ) = 115 from rfl, hdraw]
    show [clampByte (((0 : ℕ) : ℚ) + (3/4 - 1/2) * ((20 : ℕ) : ℚ))] = [5]
    decide
  show warpLayer sinF 2 (115 + 1)
    (chromaticLayer 3 (noiseLayer rnd (((20 : ℕ) : ℚ)) 1 115 [0]) 1 1 1) 1 1 1 = [5]
  rw [hn, show chromaticLayer 3 [5] 1 1 1 = [5] from by decide, warpLayer_1x1]

/-- Witness for the amended C8: the hypothesis holds for the concrete
draw stream `rnd34`, and the mutation is real. -/
theorem c8_amended_witness :
    rnd34 115 = 3/4 ∧ applyAiShielding rnd34 sinF0 [0] 1 1 1 "s" .normal = [5] :=
  ⟨rfl, c8_amended_no_validation_mutates rnd34 sinF0 rfl⟩

/-! ### C7: the alpha channel is never written -/

lemma warpStep_bufGet_out (sinF : ℚ → ℚ) (snap : List ℕ) (w h c : ℕ)
    (warp : ℚ) (s1 : ℕ) (l : List ℕ) (yx : ℕ × ℕ) (j : ℕ)
    (hj : ∀ k, k < 3 → (yx.1 * w + yx.2) * c + k ≠ j) :
    bufGet (warpStep sinF snap w h c warp s1 l yx) j = bufGet l j := by
  rw [warpStep]
  rw [bufGet_set_ne _ _ _ _ (hj 2 (by omega)), bufGet_set_ne _ _ _ _ (hj 1 (by omega))]
  exact bufGet_set_ne _ _ _ _ (by simpa using hj 0 (by omega))

lemma noiseLayer_alpha (rnd : ℕ → ℚ) (ns : ℚ) (s0 : ℕ) (px : List ℕ) (j : ℕ)
    (hj : j % 4 = 3) : bufGet (noiseLayer rnd ns 4 s0 px) j = bufGet px j := by
  rw [noiseLayer]
  refine foldl_bufGet_eq _ _ _ (fun l t _ => ?_) px
  rw [noiseStep]
  rw [bufGet_set_ne _ _ _ _ (by omega), bufGet_set_ne _ _ _ _ (by omega)]
  exact bufGet_set_ne _ _ _ _ (by omega)

lemma chromaticLayer_alpha (shift : ℕ) (px : List ℕ) (w h j : ℕ)
    (hj : j % 4 = 3) : bufGet (chromaticLayer shift px w h 4) j = bufGet px j :=
  foldl_bufGet_eq _ _ _
    (fun l a _ => chromaticStep_bufGet_out px w h 4 shift l a j
      (fun k hk => by omega)) px

lemma warpLayer_alpha (sinF : ℚ → ℚ) (warp : ℚ) (s1 : ℕ) (px : List ℕ)
    (w h j : ℕ) (hj : j % 4 = 3) :
    bufGet (warpLayer sinF warp s1 px w h 4) j = bufGet px j :=
  foldl_bufGet_eq _ _ _
    (fun l a _ => warpStep_bufGet_out sinF px w h 4 warp s1 l a j
      (fun k hk => by omega)) px

lemma drawChan_lt (rnd : ℕ → ℚ) (s : ℕ) (h0 : 0 ≤ rnd s) (h1 : rnd s < 1) :
    drawChan rnd s < 3 := by
  rw [drawChan]
  have hf : ⌊rnd s * 3⌋ < 3 := by
    rw [Int.floor_lt]
    push_cast
    nlinarith
  omega

lemma drawPixel_lt (rnd : ℕ → ℚ) (tp s : ℕ) (htp : 0 < tp)
    (h0 : 0 ≤ rnd s) (h1 : rnd s < 1) : drawPixel rnd tp s < tp := by
  rw [drawPixel]
  have hf : ⌊rnd s * (tp : ℚ)⌋ < (tp : ℤ) := by
    rw [Int.floor_lt]
    push_cast
    nlinarith [(by exact_mod_cast htp : (0 : ℚ) < (tp : ℚ))]
  omega

lemma embedLoop_alpha (rnd : ℕ → ℚ) (tp : ℕ) (bits : List Bool)
    (hr : ∀ n, 0 ≤ rnd n ∧ rnd n < 1) :
    ∀ (fuel : ℕ) (st : EmbedSt) (j : ℕ), j % 4 = 3 →
      bufGet (embedLoop rnd tp bits fuel st).px j = bufGet st.px j := by
  intro fuel
  induction fuel with
  | zero => intro st j hj; rfl
  | succ f ih =>
    intro st j hj
    rw [embedLoop]
    have hc3 := drawChan_lt rnd (st.s + 1) (hr (st.s + 1)).1 (hr (st.s + 1)).2
    dsimp only
    split_ifs with h1 h2 h3
    · rw [ih _ _ hj]
    · exact bufGet_set_ne _ _ _ _ (by omega)
    · rw [ih _ _ hj]
      exact bufGet_set_ne _ _ _ _ (by omega)
    · rfl

/-- C7: for 4-channel RGBA buffers neither the perturbation engine (all
three layers) nor the watermark embedder ever writes an alpha sample:
every position `j` with `j % 4 = 3` keeps its input value. -/
theorem c7_alpha_never_written (rnd : ℕ → ℚ) (sinF : ℚ → ℚ) (px : List ℕ)
    (w h fuel : ℕ) (seed : String) (agg : Aggression) (receipt : RObj)
    (hr : ∀ n, 0 ≤ rnd n ∧ rnd n < 1) (j : ℕ) (hj : j % 4 = 3) :
    bufGet (applyAiShielding rnd sinF px w h 4 seed agg) j = bufGet px j
    ∧ bufGet (embedInvisibleWatermark rnd fuel px w h receipt).px j = bufGet px j := by
  constructor
  · rw [applyAiShielding]
    split_ifs with h1 h2 h3 <;>
      simp only [warpLayer_alpha _ _ _ _ _ _ _ hj, chromaticLayer_alpha _ _ _ _ _ hj,
        noiseLayer_alpha _ _ _ _ _ hj]
  · rw [embedInvisibleWatermark]
    exact embedLoop_alpha rnd (w * h) _ hr fuel _ j hj

/-- Witness for C7 at a concrete RGBA pixel. -/
theorem c7_alpha_witness :
    (∀ n, 0 ≤ rnd3 n ∧ rnd3 n < 1) ∧ 3 % 4 = 3 ∧
    bufGet (applyAiShielding rnd3 sinF0 [1, 2, 3, 77] 1 1 4 "s" .normal) 3
      = bufGet [1, 2, 3, 77] 3
    ∧ bufGet (embedInvisibleWatermark rnd3 9 [1, 2, 3, 77] 1 1
        [("seed", .s "s"), ("final_sha256", .s "pending")]).px 3
      = bufGet [1, 2, 3, 77] 3 :=
  ⟨rnd3_range, rfl,
    (c7_alpha_never_written rnd3 sinF0 [1, 2, 3, 77] 1 1 9 "s" .normal
      [("seed", .s "s"), ("final_sha256", .s "pending")] rnd3_range 3 rfl).1,
    (c7_alpha_never_written rnd3 sinF0 [1, 2, 3, 77] 1 1 9 "s" .normal
      [("seed", .s "s"), ("final_sha256", .s "pending")] rnd3_range 3 rfl).2⟩

/-! ### Unfolding equations and invariants of the embedding loop -/

lemma embedLoop_succ_stop (rnd : ℕ → ℚ) (tp : ℕ) (bits : List Bool) (f : ℕ)
    (st : EmbedSt) (h : ¬ st.bi < bits.length) :
    embedLoop rnd tp bits (f + 1) st = st := by
  rw [embedLoop, if_neg h]

lemma embedLoop_succ_skip (rnd : ℕ → ℚ) (tp : ℕ) (bits : List Bool) (f : ℕ)
    (st : EmbedSt) (h1 : st.bi < bits.length)
    (h2 : drawPixel rnd tp st.s * 3 + drawChan rnd (st.s + 1) ∈ st.used
      ∨ drawPixel rnd tp st.s * 4 ≥ st.px.length) :
    embedLoop rnd tp bits (f + 1) st
      = embedLoop rnd tp bits f { st with s := st.s + 2 } := by
  rw [embedLoop, if_pos h1]
  dsimp only
  rw [if_pos h2]

lemma embedLoop_succ_accept (rnd : ℕ → ℚ) (tp : ℕ) (bits : List Bool) (f : ℕ)
    (st : EmbedSt) (h1 : st.bi < bits.length)
    (h2 : ¬ (drawPixel rnd tp st.s * 3 + drawChan rnd (st.s + 1) ∈ st.used
      ∨ drawPixel rnd tp st.s * 4 ≥ st.px.length)) :
    embedLoop rnd tp bits (f + 1) st
      = (if 3 * tp ≤ st.used.length + 1 then
          (⟨st.px.set (drawPixel rnd tp st.s * 4 + drawChan rnd (st.s + 1))
              (putLSB (bufGet st.px (drawPixel rnd tp st.s * 4 + drawChan rnd (st.s + 1)))
                (bits.getD st.bi false)),
            (drawPixel rnd tp st.s * 3 + drawChan rnd (st.s + 1)) :: st.used,
            st.bi + 1, st.s + 2,
            (drawPixel rnd tp st.s * 4 + drawChan rnd (st.s + 1)) :: st.wr⟩ : EmbedSt)
        else embedLoop rnd tp bits f
          ⟨st.px.set (drawPixel rnd tp st.s * 4 + drawChan rnd (st.s + 1))
              (putLSB (bufGet st.px (drawPixel rnd tp st.s * 4 + drawChan rnd (st.s + 1)))
                (bits.getD st.bi false)),
            (drawPixel rnd tp st.s * 3 + drawChan rnd (st.s + 1)) :: st.used,
            st.bi + 1, st.s + 2,
            (drawPixel rnd tp st.s * 4 + drawChan rnd (st.s + 1)) :: st.wr⟩) := by
  rw [embedLoop, if_pos h1]
  dsimp only
  rw [if_neg h2]
  rfl

lemma extractLoop_succ_stop (rnd : ℕ → ℚ) (tp : ℕ) (px : List ℕ) (n f : ℕ)
    (et : ExtractSt) (h : ¬ et.acc.length < n) :
    extractLoop rnd tp px n (f + 1) et = et := by
  rw [extractLoop, if_neg h]

lemma extractLoop_succ_skip (rnd : ℕ → ℚ) (tp : ℕ) (px : List ℕ) (n f : ℕ)
    (et : ExtractSt) (h1 : et.acc.length < n)
    (h2 : drawPixel rnd tp et.s * 3 + drawChan rnd (et.s + 1) ∈ et.used
      ∨ drawPixel rnd tp et.s * 4 ≥ px.length) :
    extractLoop rnd tp px n (f + 1) et
      = extractLoop rnd tp px n f { et with s := et.s + 2 } := by
  rw [extractLoop, if_pos h1]
  dsimp only
  rw [if_pos h2]

lemma extractLoop_succ_accept (rnd : ℕ → ℚ) (tp : ℕ) (px : List ℕ) (n f : ℕ)
    (et : ExtractSt) (h1 : et.acc.length < n)
    (h2 : ¬ (drawPixel rnd tp et.s * 3 + drawChan rnd (et.s + 1) ∈ et.used
      ∨ drawPixel rnd tp et.s * 4 ≥ px.length)) :
    extractLoop rnd tp px n (f + 1) et
      = (if 3 * tp ≤ et.used.length + 1 then
          (⟨et.acc ++ [bufGet px (drawPixel rnd tp et.s * 4 + drawChan rnd (et.s + 1)) % 2 == 1],
            (drawPixel rnd tp et.s * 3 + drawChan rnd (et.s + 1)) :: et.used,
            et.s + 2⟩ : ExtractSt)
        else extractLoop rnd tp px n f
          ⟨et.acc ++ [bufGet px (drawPixel rnd tp et.s * 4 + drawChan rnd (et.s + 1)) % 2 == 1],
            (drawPixel rnd tp et.s * 3 + drawChan rnd (et.s + 1)) :: et.used,
            et.s + 2⟩) := by
  rw [extractLoop, if_pos h1]
  dsimp only
  rw [if_neg h2]
  rfl

lemma embedLoop_px_length (rnd : ℕ → ℚ) (tp : ℕ) (bits : List Bool) :
    ∀ (f : ℕ) (st : EmbedSt),
      (embedLoop rnd tp bits f st).px.length = st.px.length := by
  intro f
  induction f with
  | zero => intro st; rfl
  | succ f ih =>
    intro st
    by_cases h1 : st.bi < bits.length
    · by_cases h2 : drawPixel rnd tp st.s * 3 + drawChan rnd (st.s + 1) ∈ st.used
        ∨ drawPixel rnd tp st.s * 4 ≥ st.px.length
      · rw [embedLoop_succ_skip rnd tp bits f st h1 h2, ih]
      · rw [embedLoop_succ_accept rnd tp bits f st h1 h2]
        split_ifs
        · simp
        · rw [ih]
          simp
    · rw [embedLoop_succ_stop rnd tp bits f st h1]

/-- Once a `(pixel, channel)` pair is in the used set, its channel byte is
never written again. -/
lemma embedLoop_used_frozen (rnd : ℕ → ℚ) (tp : ℕ) (bits : List Bool)
    (hr : ∀ n, 0 ≤ rnd n ∧ rnd n < 1) :
    ∀ (f : ℕ) (st : EmbedSt) (p c : ℕ), c < 3 → (p * 3 + c) ∈ st.used →
      bufGet (embedLoop rnd tp bits f st).px (p * 4 + c)
        = bufGet st.px (p * 4 + c) := by
  intro f
  induction f with
  | zero => intro st p c _ _; rfl
  | succ f ih =>
    intro st p c hc hmem
    have hc3 := drawChan_lt rnd (st.s + 1) (hr (st.s + 1)).1 (hr (st.s + 1)).2
    by_cases h1 : st.bi < bits.length
    · by_cases h2 : drawPixel rnd tp st.s * 3 + drawChan rnd (st.s + 1) ∈ st.used
        ∨ drawPixel rnd tp st.s * 4 ≥ st.px.length
      · rw [embedLoop_succ_skip rnd tp bits f st h1 h2]
        exact ih _ p c hc hmem
      · rw [embedLoop_succ_accept rnd tp bits f st h1 h2]
        have hu : drawPixel rnd tp st.s * 3 + drawChan rnd (st.s + 1) ≠ p * 3 + c := by
          intro he
          exact (not_or.mp h2).1 (he ▸ hmem)
        have hidx : drawPixel rnd tp st.s * 4 + drawChan rnd (st.s + 1) ≠ p * 4 + c := by
          omega
        split_ifs
        · exact bufGet_set_ne _ _ _ _ hidx
        · rw [ih _ p c hc (List.mem_cons_of_mem _ hmem)]
          exact bufGet_set_ne _ _ _ _ hidx
    · rw [embedLoop_succ_stop rnd tp bits f st h1]

/-! ### C5: watermark round-trip -/

lemma take_succ_getD (l : List Bool) (n : ℕ) (h : n < l.length) :
    l.take (n + 1) = l.take n ++ [l.getD n false] := by
  rw [List.take_succ]
  simp [List.getElem?_eq_getElem h, List.getD_eq_getElem?_getD]

/-- Lockstep simulation of extraction against embedding: running the
extractor on the final embedded buffer, from the same PRNG state and used
set, accumulates exactly the bits the embedder has emitted so far. -/
lemma roundtrip_aux (rnd : ℕ → ℚ) (tp : ℕ) (bits : List Bool)
    (hr : ∀ n, 0 ≤ rnd n ∧ rnd n < 1) :
    ∀ (f : ℕ) (st : EmbedSt), st.px.length = 4 * tp → st.bi ≤ bits.length →
      (extractLoop rnd tp (embedLoop rnd tp bits f st).px bits.length f
        ⟨bits.take st.bi, st.used, st.s⟩).acc
        = bits.take (embedLoop rnd tp bits f st).bi := by
  intro f
  induction f with
  | zero => intro st _ _; rfl
  | succ f ih =>
    intro st hpx hbi
    have hacclen : (bits.take st.bi).length = st.bi := by
      rw [List.length_take]
      omega
    by_cases h1 : st.bi < bits.length
    · have hc3 := drawChan_lt rnd (st.s + 1) (hr (st.s + 1)).1 (hr (st.s + 1)).2
      by_cases h2 : drawPixel rnd tp st.s * 3 + drawChan rnd (st.s + 1) ∈ st.used
        ∨ drawPixel rnd tp st.s * 4 ≥ st.px.length
      · -- both loops skip this draw pair
        rw [embedLoop_succ_skip rnd tp bits f st h1 h2]
        rw [extractLoop_succ_skip rnd tp _ bits.length f _
          (by dsimp only; rw [hacclen]; exact h1)
          (by
            dsimp only
            rw [embedLoop_px_length]
            exact h2)]
        exact ih { st with s := st.s + 2 } hpx hbi
      · -- both loops accept: the embedder writes bit `st.bi`, the extractor
        -- reads it back from the final buffer
        have hplt : drawPixel rnd tp st.s * 4 < st.px.length := by
          rcases not_or.mp h2 with ⟨_, hb⟩
          omega
        have hidxlt : drawPixel rnd tp st.s * 4 + drawChan rnd (st.s + 1)
            < st.px.length := by
          omega
        rw [embedLoop_succ_accept rnd tp bits f st h1 h2]
        split_ifs with hbreak
        · -- safety break fires right after the write
          rw [extractLoop_succ_accept rnd tp _ bits.length f _
            (by dsimp only; rw [hacclen]; exact h1)
            (by dsimp only; rw [List.length_set]; exact h2)]
          rw [if_pos (by dsimp only; exact hbreak)]
          dsimp only
          rw [bufGet_set_self _ _ _ hidxlt, putLSB_read_back,
            ← take_succ_getD bits st.bi h1]
        · -- both loops continue; the freshly used pair keeps its byte until
          -- the end of the run
          rw [extractLoop_succ_accept rnd tp _ bits.length f _
            (by dsimp only; rw [hacclen]; exact h1)
            (by
              dsimp only
              rw [embedLoop_px_length]
              dsimp only
              rw [List.length_set]
              exact h2)]
        -- the extractor's read from the final buffer is the bit just written
          have hread : bufGet (embedLoop rnd tp bits f
              ⟨st.px.set (drawPixel rnd tp st.s * 4 + drawChan rnd (st.s + 1))
                  (putLSB (bufGet st.px (drawPixel rnd tp st.s * 4 + drawChan rnd (st.s + 1)))
                    (bits.getD st.bi false)),
                (drawPixel rnd tp st.s * 3 + drawChan rnd (st.s + 1)) :: st.used,
                st.bi + 1, st.s + 2,
                (drawPixel rnd tp st.s * 4 + drawChan rnd (st.s + 1)) :: st.wr⟩).px
              (drawPixel rnd tp st.s * 4 + drawChan rnd (st.s + 1))
              = putLSB (bufGet st.px (drawPixel rnd tp st.s * 4 + drawChan rnd (st.s + 1)))
                (bits.getD st.bi false) := by
            rw [embedLoop_used_frozen rnd tp bits hr f _ (drawPixel rnd tp st.s)
              (drawChan rnd (st.s + 1)) hc3 (List.mem_cons_self _ _)]
            exact bufGet_set_self _ _ _ hidxlt
          rw [if_neg (by dsimp only; exact hbreak)]
          dsimp only
          rw [hread, putLSB_read_back, ← take_succ_getD bits st.bi h1]
          exact ih _ (by dsimp only; rw [List.length_set]; exact hpx)
            (by dsimp only; omega)
    · rw [embedLoop_succ_stop rnd tp bits f st h1]
      rw [extractLoop_succ_stop rnd tp st.px bits.length f _
        (by dsimp only; rw [hacclen]; omega)]

/-- C5: watermark round-trip.  Extraction (spec-modelled, `extractLoop`)
replays the PRNG draw sequence of the embedder from the same seed, in the
same accept/reject order, over the embedded buffer, and recovers the
payload exactly.  The hypothesis `hdone` states that the embedding run
completed every payload bit within the given fuel — the faithful form of
"payload fits and the draw sequence reaches enough fresh positions" (loop
termination depends on the abstracted `Math.sin` stream, and completion
forces the payload length to be at most the `3 * w * h` capacity, since
the used-index set caps accepted writes). -/
theorem c5_roundtrip (rnd : ℕ → ℚ) (bits : List Bool) (px : List ℕ)
    (w h f : ℕ) (seed : String) (hr : ∀ n, 0 ≤ rnd n ∧ rnd n < 1)
    (hpx : px.length = 4 * (w * h))
    (hdone : (embedLoop rnd (w * h) bits f ⟨px, [], 0, seedInit seed, []⟩).bi
      = bits.length) :
    (extractLoop rnd (w * h)
      (embedLoop rnd (w * h) bits f ⟨px, [], 0, seedInit seed, []⟩).px
      bits.length f ⟨[], [], seedInit seed⟩).acc = bits := by
  have haux := roundtrip_aux rnd (w * h) bits hr f
    ⟨px, [], 0, seedInit seed, []⟩ hpx (by dsimp only; omega)
  dsimp only at haux
  simp only [List.take_zero] at haux
  rw [haux, hdone, List.take_length]

set_option maxRecDepth 8000 in
unseal Rat.mul Rat.inv Rat.add Rat.sub in
/-- Witness for C5: a 3-bit payload embedded into a 1x1 RGBA buffer with
seed `"s"` under the concrete draw stream `rnd3` completes, and extraction
returns exactly the payload. -/
theorem c5_roundtrip_witness :
    (∀ n, 0 ≤ rnd3 n ∧ rnd3 n < 1) ∧
    ([0, 0, 0, 255] : List ℕ).length = 4 * (1 * 1) ∧
    (embedLoop rnd3 (1 * 1) [true, false, true] 9
      ⟨[0, 0, 0, 255], [], 0, seedInit "s", []⟩).bi = 3 ∧
    (extractLoop rnd3 (1 * 1)
      (embedLoop rnd3 (1 * 1) [true, false, true] 9
        ⟨[0, 0, 0, 255], [], 0, seedInit "s", []⟩).px
      ([true, false, true] : List Bool).length 9 ⟨[], [], seedInit "s"⟩).acc
      = [true, false, true] :=
  ⟨rnd3_range, rfl, by decide,
    c5_roundtrip rnd3 [true, false, true] [0, 0, 0, 255] 1 1 9 "s"
      rnd3_range rfl (by decide)⟩

/-! ### C4: over-capacity behaviour of the embedder -/

lemma nodup_lt_length_le (l : List ℕ) (n : ℕ) (hn : l.Nodup)
    (hb : ∀ x ∈ l, x < n) : l.length ≤ n := by
  have h1 : l.toFinset.card = l.length := List.toFinset_card_of_nodup hn
  have h2 : l.toFinset ⊆ Finset.range n := by
    intro x hx
    rw [List.mem_toFinset] at hx
    rw [Finset.mem_range]
    exact hb x hx
  have := Finset.card_le_card h2
  rw [h1, Finset.card_range] at this
  exact this

/-- Loop invariant: the used set stays duplicate-free with entries below
`3 * tp`, and the ghost write log stays in bijection with it. -/
lemma embedLoop_used_inv (rnd : ℕ → ℚ) (tp : ℕ) (bits : List Bool)
    (hr : ∀ n, 0 ≤ rnd n ∧ rnd n < 1) :
    ∀ (f : ℕ) (st : EmbedSt), st.px.length ≤ 4 * tp →
      st.used.Nodup → (∀ u ∈ st.used, u < 3 * tp) →
      st.wr.length = st.used.length →
      (embedLoop rnd tp bits f st).used.Nodup
      ∧ (∀ u ∈ (embedLoop rnd tp bits f st).used, u < 3 * tp)
      ∧ (embedLoop rnd tp bits f st).wr.length
        = (embedLoop rnd tp bits f st).used.length := by
  intro f
  induction f with
  | zero => intro st _ h1 h2 h3; exact ⟨h1, h2, h3⟩
  | succ f ih =>
    intro st hpx hnd hlt hwr
    by_cases h1 : st.bi < bits.length
    · by_cases h2 : drawPixel rnd tp st.s * 3 + drawChan rnd (st.s + 1) ∈ st.used
        ∨ drawPixel rnd tp st.s * 4 ≥ st.px.length
      · rw [embedLoop_succ_skip rnd tp bits f st h1 h2]
        exact ih _ hpx hnd hlt hwr
      · rcases not_or.mp h2 with ⟨hnotin, hinb⟩
        have hc3 := drawChan_lt rnd (st.s + 1) (hr (st.s + 1)).1 (hr (st.s + 1)).2
        have hu_lt : drawPixel rnd tp st.s * 3 + drawChan rnd (st.s + 1)
            < 3 * tp := by
          have : drawPixel rnd tp st.s * 4 < 4 * tp := by omega
          omega
        have hnd' : ((drawPixel rnd tp st.s * 3 + drawChan rnd (st.s + 1))
            :: st.used).Nodup := List.nodup_cons.mpr ⟨hnotin, hnd⟩
        have hlt' : ∀ u ∈ (drawPixel rnd tp st.s * 3 + drawChan rnd (st.s + 1))
            :: st.used, u < 3 * tp := by
          intro u hu
          rcases List.mem_cons.mp hu with h | h
          · omega
          · exact hlt u h
        rw [embedLoop_succ_accept rnd tp bits f st h1 h2]
        split_ifs
        · exact ⟨hnd', hlt', by dsimp only; simp [hwr]⟩
        · exact ih _ (by dsimp only; rw [List.length_set]; exact hpx) hnd' hlt'
            (by dsimp only; simp [hwr])
    · rw [embedLoop_succ_stop rnd tp bits f st h1]
      exact ⟨hnd, hlt, hwr⟩

/-- The used-index safety break caps accepted writes at the capacity. -/
lemma embedLoop_write_bound (rnd : ℕ → ℚ) (tp : ℕ) (bits : List Bool)
    (hr : ∀ n, 0 ≤ rnd n ∧ rnd n < 1) (f : ℕ) (st : EmbedSt)
    (hpx : st.px.length ≤ 4 * tp) (hused : st.used = []) (hwr : st.wr = []) :
    (embedLoop rnd tp bits f st).wr.length ≤ 3 * tp := by
  have h := embedLoop_used_inv rnd tp bits hr f st hpx (by rw [hused]; exact List.nodup_nil)
    (by rw [hused]; intro u hu; cases hu) (by rw [hused, hwr])
  rw [h.2.2]
  exact nodup_lt_length_le _ _ h.1 h.2.1

/-- The receipt used by the concrete embedder runs: seed `"s"`, hash still
pending (so the payload is the full 88-character warning text, 712 bits —
far over the 3-bit capacity of a 1x1 image). -/
def c4receipt : RObj := [("seed", .s "s"), ("final_sha256", .s "pending")]

set_option maxRecDepth 8000 in
unseal Rat.mul Rat.inv Rat.add Rat.sub in
/-- C4 counterexample: on a 1x1 image the 712-bit payload exceeds the
3-bit capacity, yet the embedder raises nothing, writes three bits (the
ghost log is nonempty) and mutates the buffer — `[0,0,0,255]` becomes
`[0,1,0,255]` under the admissible draw stream `rnd3`.  So "fail with
CapacityError and write zero bits, leaving every pixel unchanged" is
false. -/
theorem c4_counterexample :
    3 * (1 * 1) < (watermarkBits (watermarkText (rgetS c4receipt "seed")
      (rgetS c4receipt "final_sha256"))).length
    ∧ (embedInvisibleWatermark rnd3 10 [0, 0, 0, 255] 1 1 c4receipt).px
      ≠ [0, 0, 0, 255]
    ∧ (embedInvisibleWatermark rnd3 10 [0, 0, 0, 255] 1 1 c4receipt).wr ≠ [] := by
  refine ⟨by decide, by decide, by decide⟩

/-- C4 amended: a payload longer than the capacity `w * h * 3` does not
abort the embedding — the source only logs a warning — and the buffer is
partially embedded rather than left untouched; the used-index safety
break limits the accepted writes to at most `w * h * 3` samples. -/
theorem c4_amended_overflow_partial_embed (rnd : ℕ → ℚ) (fuel : ℕ)
    (px : List ℕ) (w h : ℕ) (receipt : RObj)
    (hr : ∀ n, 0 ≤ rnd n ∧ rnd n < 1) (hpx : px.length ≤ 4 * (w * h)) :
    (embedInvisibleWatermark rnd fuel px w h receipt).wr.length
      ≤ 3 * (w * h) := by
  rw [embedInvisibleWatermark]
  exact embedLoop_write_bound rnd (w * h) _ hr fuel _ hpx rfl rfl

set_option maxRecDepth 8000 in
unseal Rat.mul Rat.inv Rat.add Rat.sub in
/-- Witness for the amended C4 on the over-capacity 1x1 run. -/
theorem c4_amended_witness :
    (∀ n, 0 ≤ rnd3 n ∧ rnd3 n < 1) ∧
    ([0, 0, 0, 255] : List ℕ).length ≤ 4 * (1 * 1) ∧
    (embedInvisibleWatermark rnd3 10 [0, 0, 0, 255] 1 1 c4receipt).wr.length
      ≤ 3 * (1 * 1) :=
  ⟨rnd3_range, by decide,
    c4_amended_overflow_partial_embed rnd3 10 [0, 0, 0, 255] 1 1 c4receipt
      rnd3_range (by decide)⟩

/-! ### C10: LSB-only writes, each position written at most once -/

/-- Loop invariant for byte buffers: every byte keeps its high seven bits
(`v / 2` is preserved at every position) and stays below 256. -/
lemma embedLoop_lsb (rnd : ℕ → ℚ) (tp : ℕ) (bits : List Bool) :
    ∀ (f : ℕ) (st : EmbedSt), (∀ v ∈ st.px, v < 256) →
      (∀ v ∈ (embedLoop rnd tp bits f st).px, v < 256)
      ∧ ∀ j, bufGet (embedLoop rnd tp bits f st).px j / 2 = bufGet st.px j / 2 := by
  intro f
  induction f with
  | zero => intro st h256; exact ⟨h256, fun j => rfl⟩
  | succ f ih =>
    intro st h256
    by_cases h1 : st.bi < bits.length
    · by_cases h2 : drawPixel rnd tp st.s * 3 + drawChan rnd (st.s + 1) ∈ st.used
        ∨ drawPixel rnd tp st.s * 4 ≥ st.px.length
      · rw [embedLoop_succ_skip rnd tp bits f st h1 h2]
        exact ih _ h256
      · have hset256 : ∀ v ∈ st.px.set (drawPixel rnd tp st.s * 4 + drawChan rnd (st.s + 1))
            (putLSB (bufGet st.px (drawPixel rnd tp st.s * 4 + drawChan rnd (st.s + 1)))
              (bits.getD st.bi false)), v < 256 := by
          intro v hv
          rcases List.mem_or_eq_of_mem_set hv with h | h
          · exact h256 v h
          · rcases Nat.lt_or_ge (drawPixel rnd tp st.s * 4 + drawChan rnd (st.s + 1))
              st.px.length with hin | hout
            · have hmem : bufGet st.px (drawPixel rnd tp st.s * 4 + drawChan rnd (st.s + 1))
                  ∈ st.px := by
                rw [bufGet, List.getD_eq_getElem _ _ hin]
                exact List.getElem_mem hin
              rw [h]
              exact (putLSB_byte _ (h256 _ hmem) _).1
            · -- out-of-bounds read defaults to 0; `putLSB 0 b < 256` anyway
              rw [h, bufGet, List.getD_eq_default _ _ hout]
              exact (putLSB_byte 0 (by omega) _).1
        have hsetdiv : ∀ j, bufGet (st.px.set (drawPixel rnd tp st.s * 4 + drawChan rnd (st.s + 1))
            (putLSB (bufGet st.px (drawPixel rnd tp st.s * 4 + drawChan rnd (st.s + 1)))
              (bits.getD st.bi false))) j / 2 = bufGet st.px j / 2 := by
          intro j
          by_cases hij : drawPixel rnd tp st.s * 4 + drawChan rnd (st.s + 1) = j
          · subst hij
            rcases Nat.lt_or_ge (drawPixel rnd tp st.s * 4 + drawChan rnd (st.s + 1))
              st.px.length with hin | hout
            · have hmem : bufGet st.px (drawPixel rnd tp st.s * 4 + drawChan rnd (st.s + 1))
                  ∈ st.px := by
                rw [bufGet, List.getD_eq_getElem _ _ hin]
                exact List.getElem_mem hin
              rw [bufGet_set_self _ _ _ hin]
              exact (putLSB_byte _ (h256 _ hmem) _).2
            · rw [List.set_eq_of_length_le hout]
          · rw [bufGet_set_ne _ _ _ _ hij]
        rw [embedLoop_succ_accept rnd tp bits f st h1 h2]
        split_ifs
        · exact ⟨hset256, hsetdiv⟩
        · rcases ih ⟨st.px.set (drawPixel rnd tp st.s * 4 + drawChan rnd (st.s + 1))
              (putLSB (bufGet st.px (drawPixel rnd tp st.s * 4 + drawChan rnd (st.s + 1)))
                (bits.getD st.bi false)),
            (drawPixel rnd tp st.s * 3 + drawChan rnd (st.s + 1)) :: st.used,
            st.bi + 1, st.s + 2,
            (drawPixel rnd tp st.s * 4 + drawChan rnd (st.s + 1)) :: st.wr⟩ hset256
            with ⟨ha, hb⟩
          exact ⟨ha, fun j => (hb j).trans (hsetdiv j)⟩
    · rw [embedLoop_succ_stop rnd tp bits f st h1]
      exact ⟨h256, fun j => rfl⟩

/-- Loop invariant for the ghost write log: each logged channel index maps
back to a used-set entry, so no channel byte is ever written twice. -/
lemma embedLoop_wr_nodup (rnd : ℕ → ℚ) (tp : ℕ) (bits : List Bool)
    (hr : ∀ n, 0 ≤ rnd n ∧ rnd n < 1) :
    ∀ (f : ℕ) (st : EmbedSt),
      (∀ j ∈ st.wr, 3 * (j / 4) + j % 4 ∈ st.used) → st.wr.Nodup →
      (∀ j ∈ (embedLoop rnd tp bits f st).wr,
        3 * (j / 4) + j % 4 ∈ (embedLoop rnd tp bits f st).used)
      ∧ (embedLoop rnd tp bits f st).wr.Nodup := by
  intro f
  induction f with
  | zero => intro st hmap hnd; exact ⟨hmap, hnd⟩
  | succ f ih =>
    intro st hmap hnd
    by_cases h1 : st.bi < bits.length
    · by_cases h2 : drawPixel rnd tp st.s * 3 + drawChan rnd (st.s + 1) ∈ st.used
        ∨ drawPixel rnd tp st.s * 4 ≥ st.px.length
      · rw [embedLoop_succ_skip rnd tp bits f st h1 h2]
        exact ih _ hmap hnd
      · have hc3 := drawChan_lt rnd (st.s + 1) (hr (st.s + 1)).1 (hr (st.s + 1)).2
        have hcode : 3 * ((drawPixel rnd tp st.s * 4 + drawChan rnd (st.s + 1)) / 4)
            + (drawPixel rnd tp st.s * 4 + drawChan rnd (st.s + 1)) % 4
            = drawPixel rnd tp st.s * 3 + drawChan rnd (st.s + 1) := by
          omega
        have hmap' : ∀ j ∈ (drawPixel rnd tp st.s * 4 + drawChan rnd (st.s + 1)) :: st.wr,
            3 * (j / 4) + j % 4
              ∈ (drawPixel rnd tp st.s * 3 + drawChan rnd (st.s + 1)) :: st.used := by
          intro j hj
          rcases List.mem_cons.mp hj with h | h
          · subst h
            rw [hcode]
            exact List.mem_cons_self _ _
          · exact List.mem_cons_of_mem _ (hmap j h)
        have hnd' : ((drawPixel rnd tp st.s * 4 + drawChan rnd (st.s + 1)) :: st.wr).Nodup := by
          rw [List.nodup_cons]
          refine ⟨fun hin => ?_, hnd⟩
          have := hmap _ hin
          rw [hcode] at this
          exact (not_or.mp h2).1 this
        rw [embedLoop_succ_accept rnd tp bits f st h1 h2]
        split_ifs
        · exact ⟨hmap', hnd'⟩
        · exact ih _ hmap' hnd'
    · rw [embedLoop_succ_stop rnd tp bits f st h1]
      exact ⟨hmap, hnd⟩

/-- C10: every write of the watermark embedder touches only the least
significant bit of the targeted channel byte — for byte-valued buffers
every output byte keeps its input value divided by 2, hence differs from
it by at most 1 — and the used-index set makes each channel byte be
written at most once: the ghost write log is duplicate-free. -/
theorem c10_lsb_only_and_write_once (rnd : ℕ → ℚ) (fuel : ℕ) (px : List ℕ)
    (w h : ℕ) (receipt : RObj) (hr : ∀ n, 0 ≤ rnd n ∧ rnd n < 1)
    (h256 : ∀ v ∈ px, v < 256) :
    (∀ j, bufGet (embedInvisibleWatermark rnd fuel px w h receipt).px j / 2
        = bufGet px j / 2)
    ∧ (∀ j, bufGet (embedInvisibleWatermark rnd fuel px w h receipt).px j
        ≤ bufGet px j + 1
      ∧ bufGet px j ≤ bufGet (embedInvisibleWatermark rnd fuel px w h receipt).px j + 1)
    ∧ (embedInvisibleWatermark rnd fuel px w h receipt).wr.Nodup := by
  rw [embedInvisibleWatermark]
  have hdiv := (embedLoop_lsb rnd (w * h)
    (watermarkBits (watermarkText (rgetS receipt "seed") (rgetS receipt "final_sha256")))
    fuel ⟨px, [], 0, seedInit (rgetS receipt "seed"), []⟩ h256).2
  dsimp only at hdiv
  have hnd := (embedLoop_wr_nodup rnd (w * h)
    (watermarkBits (watermarkText (rgetS receipt "seed") (rgetS receipt "final_sha256")))
    hr fuel ⟨px, [], 0, seedInit (rgetS receipt "seed"), []⟩
    (fun j hj => by cases hj) List.nodup_nil).2
  refine ⟨hdiv, fun j => ?_, hnd⟩
  have := hdiv j
  omega

set_option maxRecDepth 8000 in
unseal Rat.mul Rat.inv Rat.add Rat.sub in
/-- Witness for C10 on the concrete 1x1 over-capacity run. -/
theorem c10_witness :
    (∀ n, 0 ≤ rnd3 n ∧ rnd3 n < 1) ∧ (∀ v ∈ ([0, 0, 0, 255] : List ℕ), v < 256) ∧
    (∀ j, bufGet (embedInvisibleWatermark rnd3 10 [0, 0, 0, 255] 1 1 c4receipt).px j / 2
        = bufGet [0, 0, 0, 255] j / 2)
    ∧ (embedInvisibleWatermark rnd3 10 [0, 0, 0, 255] 1 1 c4receipt).wr.Nodup :=
  ⟨rnd3_range, by decide,
    (c10_lsb_only_and_write_once rnd3 10 [0, 0, 0, 255] 1 1 c4receipt
      rnd3_range (by decide)).1,
    (c10_lsb_only_and_write_once rnd3 10 [0, 0, 0, 255] 1 1 c4receipt
      rnd3_range (by decide)).2.2⟩

end FaceGuard
